import Mathlib

/-!
# WeedAI — verification of the chunking / loading / retrieval pipeline

A shallow embedding of the GraphRAG pipeline of the WeedAI repository:

* `packages/graph/src/graph/chunker.py` — structure-aware chunker
  (`Chunk`, `classify_section`, `is_weed_table`, `chunk_docling_json`);
* `packages/graph/src/graph/chunk_loader.py` — entity extraction and the
  Neo4j chunk loader (`extract_entity_mentions`, `load_chunks_from_docling`);
* `packages/graph/src/graph/queries.py` — retrieval queries
  (`hybrid_search`, `find_chunks_for_weed`).

Python strings are modelled as `List Char`; Python's `re` module is modelled
by a small backtracking matcher covering exactly the constructs the source's
patterns use (literals, character classes, `|`, `?`, `\s*`, `\d+`), with
`re.IGNORECASE` modelled by lower-casing subject and pattern (all subject
text is ASCII-ish herbicide-label text).  Neo4j effects are modelled by
explicit write-operation traces and a relational graph state; the embedding
model (sentence-transformers) and the md5 hash are external inputs and enter
as function parameters.
-/

namespace WeedAI

/-- Python `str`, modelled as a list of characters. -/
abbrev Str := List Char

/-- Coerce a Lean string literal into the model's string type. -/
def str (s : String) : Str := s.data

/-- Python whitespace for `str.split()` / `str.strip()` / `\s` (ASCII range:
space, tab, newline, carriage return, vertical tab, form feed). -/
def isPySpace (c : Char) : Bool :=
  c = ' ' || c = '\t' || c = '\n' || c = '\r' || c = Char.ofNat 11 || c = Char.ofNat 12

/-- Python `str.lower()`, one character (ASCII letters; label text is ASCII). -/
def pyLowerChar (c : Char) : Char :=
  if 65 ≤ c.toNat ∧ c.toNat ≤ 90 then Char.ofNat (c.toNat + 32) else c

/-- Python `str.lower()`. -/
def pyLower (s : Str) : Str := s.map pyLowerChar

/-- Python `sep.join(xs)`. -/
def joinSep (sep : Str) : List Str → Str
  | [] => []
  | [x] => x
  | x :: y :: xs => x ++ sep ++ joinSep sep (y :: xs)

/-- Helper for `pySplitWs`: current partial word is accumulated reversed. -/
def splitWsAux : Str → Str → List Str
  | [], acc => if acc = [] then [] else [acc.reverse]
  | c :: cs, acc =>
    if isPySpace c then
      if acc = [] then splitWsAux cs [] else acc.reverse :: splitWsAux cs []
    else splitWsAux cs (c :: acc)

/-- Python `str.split()` with no argument: maximal runs of non-whitespace. -/
def pySplitWs (s : Str) : List Str := splitWsAux s []

/-- `len(text.split())`, the chunker's token estimate. -/
def countWords (s : Str) : Nat := (pySplitWs s).length

/-- Python `str.strip()`. -/
def pyStrip (s : Str) : Str :=
  ((s.dropWhile (fun c => isPySpace c)).reverse.dropWhile (fun c => isPySpace c)).reverse

/-- Does `s` start with `p`? (helper for the substring test). -/
def beginsWith : Str → Str → Bool
  | [], _ => true
  | _ :: _, [] => false
  | p :: ps, c :: cs => p = c && beginsWith ps cs

/-- Python `needle in hay` on strings: substring containment. -/
def pyIn (needle : Str) : Str → Bool
  | [] => beginsWith needle []
  | hay@(_ :: t) => beginsWith needle hay || pyIn needle t

/-! ## A tiny backtracking regex matcher

Covers the constructs appearing in the source's patterns.  `reMatch r s`
returns the possible `(consumed, rest)` splits in Python's backtracking
priority order (alternatives left first, `?` greedy, `\s*` / `\d+` longest
first), so the head of the list is the match Python's `re` would pick. -/

inductive RE where
  | eps
  | chr (c : Char)
  | cls (p : Char → Bool)
  | seq (a b : RE)
  | alt (a b : RE)
  | opt (a : RE)
  | starCls (p : Char → Bool)

/-- Ways a greedy `p*` (class star) can consume a prefix, longest first. -/
def starOptions (p : Char → Bool) : Str → List (Str × Str)
  | [] => [([], [])]
  | c :: cs =>
    if p c then ((starOptions p cs).map (fun g => (c :: g.1, g.2))) ++ [([], c :: cs)]
    else [([], c :: cs)]

/-- All `(consumed, rest)` splits of a match of `r` at the start of `s`,
in backtracking priority order. -/
def reMatch : RE → Str → List (Str × Str)
  | .eps, s => [([], s)]
  | .chr _, [] => []
  | .chr c, x :: rest => if x = c then [([x], rest)] else []
  | .cls _, [] => []
  | .cls p, x :: rest => if p x then [([x], rest)] else []
  | .seq a b, s =>
    (reMatch a s).flatMap (fun g1 => (reMatch b g1.2).map (fun g2 => (g1.1 ++ g2.1, g2.2)))
  | .alt a b, s => reMatch a s ++ reMatch b s
  | .opt a, s => reMatch a s ++ [([], s)]
  | .starCls p, s => starOptions p s

/-- Python `re.search`: leftmost match position, first backtracking match
there; returns `match.group()` (the consumed substring). -/
def pySearch (r : RE) : Str → Option Str
  | [] =>
    match reMatch r [] with
    | g :: _ => some g.1
    | [] => none
  | s@(_ :: t) =>
    match reMatch r s with
    | g :: _ => some g.1
    | [] => pySearch r t

/-- `re.search(...) is not None`. -/
def reTest (r : RE) (s : Str) : Bool := (pySearch r s).isSome

/-- Concatenation of a list of regexes. -/
def cat : List RE → RE
  | [] => .eps
  | r :: rs => .seq r (cat rs)

/-- A literal string pattern. -/
def lit (s : String) : RE := cat (s.data.map RE.chr)

/-- `\s*`. -/
def wsStar : RE := .starCls (fun c => isPySpace c)

/-- ASCII digit class for `\d`. -/
def isDigitChar (c : Char) : Bool := 48 ≤ c.toNat && c.toNat ≤ 57

/-- `[a-z]` (patterns are matched against lower-cased text). -/
def isLowerAZ (c : Char) : Bool := 97 ≤ c.toNat && c.toNat ≤ 122

/-- chunker.py: the rate pattern `\d+\s*(mL|g|L)/ha` (case-insensitive, so
matched in lower case against lower-cased cells). -/
def ratePattern : RE :=
  .seq (.cls isDigitChar) (.seq (.starCls isDigitChar)
    (.seq wsStar (.seq (.alt (lit "ml") (.alt (.chr 'g') (.chr 'l'))) (lit "/ha"))))

/-- chunker.py `SECTION_PATTERNS`, in dict insertion order; all compiled with
`re.IGNORECASE`, hence matched against lower-cased text. -/
def sectionPatterns : List (Str × RE) :=
  [ (str "product_identity",
      .alt (.seq (lit "label") (.seq wsStar (lit "name")))
        (.alt (.seq (lit "product") (.seq wsStar (lit "name"))) (lit "apvma"))),
    (str "claims",
      .alt (.seq (lit "statement") (.seq wsStar (.seq (lit "of") (.seq wsStar (lit "claims")))))
        (lit "claim")),
    (str "resistance_warning",
      .alt (.seq (lit "resistance") (.seq wsStar (lit "warning")))
        (.seq (lit "group") (.seq wsStar (.seq (.cls isLowerAZ) (.seq wsStar (lit "herbicide")))))),
    (str "directions_for_use",
      .alt (lit "situation") (.alt (lit "crop") (.alt (lit "weeds")
        (.alt (lit "rate") (.seq (lit "critical") (.seq wsStar (lit "comments"))))))),
    (str "weed_table",
      .alt (.seq (lit "weed") (.seq wsStar (lit "table")))
        (.seq (lit "weed") (.seq (.opt (.chr 's')) (.seq wsStar (lit "controlled"))))),
    (str "withholding_period",
      .alt (lit "withholding") (.alt (lit "whp") (lit "harvest"))),
    (str "compatibility",
      .alt (lit "compatib") (.alt (.seq (lit "tank") (.seq wsStar (lit "mix"))) (lit "mixing"))),
    (str "safety",
      .alt (lit "safety") (.alt (.seq (lit "first") (.seq wsStar (lit "aid")))
        (.alt (lit "poison") (lit "hazard")))),
    (str "storage",
      .alt (lit "storage") (.alt (lit "disposal") (lit "container"))) ]

/-! ## The chunker's data model (chunker.py) -/

/-- A Docling table block, as the chunker reads it from the JSON document:
`id`, `markdown`, `rows`, `column_count`, `row_count` and `bbox.page` are
the keys `chunk_docling_json` accesses (absent keys are `none`). -/
structure Table where
  id : Option Str := none
  markdown : Str := []
  rows : List (List Str) := []
  column_count : Option Nat := none
  row_count : Option Nat := none
  page : Option Nat := none

/-- chunker.py `Chunk` (the dataclass, minus `to_dict`). -/
structure Chunk where
  chunk_id : Str
  text : Str
  chunk_type : Str
  sequence_order : Nat
  source_file : Str
  product_number : Str
  parent_section : Option Str := none
  table_id : Option Str := none
  row_count : Option Nat := none
  column_count : Option Nat := none
  headers : List Str := []
  page_number : Option Nat := none
deriving DecidableEq

/-- The bracketed context markers `Chunk.contextualize` prepends: product,
section (a `None` or empty section label is falsy in Python), then the
chunk-type tag. -/
def chunkParts (c : Chunk) : List Str :=
  (if c.product_number ≠ [] then [str "[Product: " ++ c.product_number ++ str "]"] else []) ++
  (match c.parent_section with
   | some s => if s ≠ [] then [str "[Section: " ++ s ++ str "]"] else []
   | none => []) ++
  (if c.chunk_type = str "weed_table" then [str "[Weed Control Table]"]
   else if c.chunk_type = str "directions" then [str "[Directions for Use]"] else [])

/-- chunker.py `Chunk.contextualize`: `" ".join(parts)` where `parts` is the
marker list followed by the chunk's raw text. -/
def Chunk.contextualize (c : Chunk) : Str := joinSep (str " ") (chunkParts c ++ [c.text])

/-- chunker.py `classify_section`'s text: the markdown if non-empty (truthy),
else all rows joined by spaces. -/
def classifyText (t : Table) : Str :=
  if t.markdown ≠ [] then t.markdown
  else joinSep (str " ") (t.rows.map (joinSep (str " ")))

/-- chunker.py `classify_section`: first matching pattern wins, else a
default from the column count. -/
def classify_section (t : Table) : Str :=
  let text := pyLower (classifyText t)
  match sectionPatterns.find? (fun pr => reTest pr.2 text) with
  | some pr => pr.1
  | none =>
    let col := t.column_count.getD 0
    if col ≥ 4 then str "directions_for_use"
    else if col = 2 then str "metadata"
    else str "general"

/-- chunker.py: the weed-name indicator keywords checked in column 0. -/
def weed_indicators : List Str :=
  [str "weed", str "grass", str "thistle", str "dock", str "clover", str "ryegrass"]

/-- chunker.py `is_weed_table`: at least 3 rows, and — scanning only
`rows[:5]`, skipping empty (falsy) rows — either a weed indicator contained
in the lower-cased first column, or the rate pattern in some cell of the row.
(The Python early-returns are an `any` over those row checks; the unused
local `text` on line 137 is dead code and not modelled.) -/
def is_weed_table (t : Table) : Bool :=
  if t.rows.length < 3 then false
  else
    (t.rows.take 5).any (fun row =>
      match row with
      | [] => false
      | c0 :: _ =>
        weed_indicators.any (fun ind => pyIn ind (pyLower c0)) ||
        row.any (fun cell => reTest ratePattern (pyLower cell)))

/-- `str(n)` for the f-strings building identifiers. -/
def natStr (n : Nat) : Str := (toString n).data

/-- `(a + b - 1) / b`: ceiling division (used to count `range` iterations). -/
def ceilDiv (a b : Nat) : Nat := (a + b - 1) / b

/-- Python `range(0, stop, step)` as a list of indices. -/
def pyRange (stop step : Nat) : List Nat :=
  (List.range (ceilDiv stop step)).map (fun j => j * step)

/-- `table.get("id", f"table-{sequence}")`. -/
def tableId (t : Table) (seq : Nat) : Str := t.id.getD (str "table-" ++ natStr seq)

/-- The sticky `current_section` after this table: `classify_section`'s
result when it is not the `"general"` default, else the carried value. -/
def sectionAfter (t : Table) (cur : Option Str) : Option Str :=
  if classify_section t ≠ str "general" then some (classify_section t) else cur

/-- The chunk-type chain of `chunk_docling_json` (lines 190-198). -/
def tableChunkType (t : Table) : Str :=
  if is_weed_table t then str "weed_table"
  else if classify_section t = str "directions_for_use" then str "directions"
  else if classify_section t = str "metadata" ∨ t.column_count.getD 0 ≤ 2 then str "metadata"
  else str "table"

/-- The headers list: the first row's cells when the table has rows and at
least 3 columns, else empty (and an empty first row stays empty/falsy). -/
def tableHeaders (t : Table) : List Str :=
  if t.rows ≠ [] ∧ t.column_count.getD 0 ≥ 3 then t.rows.headD [] else []

/-- The chunk text: the markdown when non-empty (truthy), else the rows
joined as ` | `-separated lines. -/
def chunkText (t : Table) : Str :=
  if t.markdown ≠ [] then t.markdown
  else joinSep (str "\n") (t.rows.map (joinSep (str " | ")))

/-- `md5(f"{product_number}-{table_id}-{sequence}").hexdigest()[:8]` with the
hash function abstract. -/
def tableHash (H : Str → Str) (pn : Str) (t : Table) (seq : Nat) : Str :=
  H (pn ++ str "-" ++ tableId t seq ++ str "-" ++ natStr seq)

/-- `data_rows`: all rows, minus the first when a (truthy) header exists. -/
def tableDataRows (t : Table) : List (List Str) :=
  if tableHeaders t ≠ [] then t.rows.tail else t.rows

/-- `rows_per_chunk = max(1, len(data_rows) // ((estimated_tokens // max_chunk_tokens) + 1))`. -/
def rowsPerChunk (t : Table) (maxTok : Nat) : Nat :=
  max 1 ((tableDataRows t).length / ((countWords (chunkText t) / maxTok) + 1))

/-- `data_rows[i : i + rows_per_chunk]`. -/
def subChunkRows (t : Table) (maxTok i : Nat) : List (List Str) :=
  ((tableDataRows t).drop i).take (rowsPerChunk t maxTok)

/-- A sub-chunk's text: the ` | `-joined header row plus newline (when a
header exists — `header_row` is `rows[0] if headers else None`), then the
group's rows as ` | `-joined lines. -/
def subChunkText (t : Table) (maxTok i : Nat) : Str :=
  let body := joinSep (str "\n") ((subChunkRows t maxTok i).map (joinSep (str " | ")))
  if tableHeaders t ≠ [] then joinSep (str " | ") (t.rows.headD []) ++ str "\n" ++ body
  else body

/-- The chunk yielded for the `ji.1`-th split group, starting at data-row
index `ji.2` (so `sequence` has advanced `ji.1` times and the id's part
index is `i // rows_per_chunk`). -/
def subChunk (H : Str → Str) (pn sf : Str) (maxTok seq : Nat) (cur' : Option Str) (t : Table)
    (ji : Nat × Nat) : Chunk :=
  { chunk_id := pn ++ str "-" ++ tableId t seq ++ str "-part"
      ++ natStr (ji.2 / rowsPerChunk t maxTok) ++ str "-" ++ tableHash H pn t seq
    text := subChunkText t maxTok ji.2
    chunk_type := tableChunkType t
    sequence_order := seq + ji.1
    source_file := sf
    product_number := pn
    parent_section := cur'
    table_id := some (tableId t seq)
    row_count := some (subChunkRows t maxTok ji.2).length
    column_count := t.column_count
    headers := tableHeaders t
    page_number := t.page }

/-- The chunks of the large-table branch: one per
`for i in range(0, len(data_rows), rows_per_chunk)` iteration. -/
def splitChunks (H : Str → Str) (pn sf : Str) (maxTok seq : Nat) (cur' : Option Str)
    (t : Table) : List Chunk :=
  (pyRange (tableDataRows t).length (rowsPerChunk t maxTok)).enum.map
    (subChunk H pn sf maxTok seq cur' t)

/-- The single chunk of the non-split branch. -/
def singleChunk (H : Str → Str) (pn sf : Str) (seq : Nat) (cur' : Option Str)
    (t : Table) : Chunk :=
  { chunk_id := pn ++ str "-" ++ tableId t seq ++ str "-" ++ tableHash H pn t seq
    text := chunkText t
    chunk_type := tableChunkType t
    sequence_order := seq
    source_file := sf
    product_number := pn
    parent_section := cur'
    table_id := some (tableId t seq)
    row_count := t.row_count
    column_count := t.column_count
    headers := tableHeaders t
    page_number := t.page }

/-- One iteration of `chunk_docling_json`'s table loop.  Input: the md5-hex
prefix `H` (external hash), product number, source file, token budget, the
running `sequence` counter and the sticky `current_section`; output the
chunks yielded for this table and the updated `current_section`.  Skips a
block with neither markdown nor rows (before classification) and a block
whose stripped text is shorter than 20 characters (after classification);
splits when the word-count estimate exceeds the budget and the block has
more than 3 rows.  `sequence` advances by exactly one per yielded chunk
(the source increments it next to every `yield`), so the caller adds the
emitted count. -/
def processTable (H : Str → Str) (pn sf : Str) (maxTok : Nat) (seq : Nat) (cur : Option Str)
    (t : Table) : List Chunk × Option Str :=
  if t.markdown = [] ∧ t.rows = [] then ([], cur)
  else if (pyStrip (chunkText t)).length < 20 then ([], sectionAfter t cur)
  else if countWords (chunkText t) > maxTok ∧ t.rows.length > 3 then
    (splitChunks H pn sf maxTok seq (sectionAfter t cur) t, sectionAfter t cur)
  else ([singleChunk H pn sf seq (sectionAfter t cur) t], sectionAfter t cur)

/-- The chunker's table loop, threading `sequence` and `current_section`. -/
def chunkTables (H : Str → Str) (pn sf : Str) (maxTok : Nat) :
    Nat → Option Str → List Table → List Chunk
  | _, _, [] => []
  | seq, cur, t :: ts =>
    let pr := processTable H pn sf maxTok seq cur t
    pr.1 ++ chunkTables H pn sf maxTok (seq + pr.1.length) pr.2 ts

/-- chunker.py `chunk_docling_json`, as a function of the already-parsed
document's tables (file IO and product-number extraction from the file name
are outside the model: `product_number` and `source_file` are inputs, and
`H` stands for `md5(...).hexdigest()[:8]`). -/
def chunk_docling_json (H : Str → Str) (product_number source_file : Str)
    (tables : List Table) (max_chunk_tokens : Nat := 512) : List Chunk :=
  chunkTables H product_number source_file max_chunk_tokens 0 none tables

/-! ## Entity extraction (chunk_loader.py) -/

/-- `x\s*y`: two literals separated by optional whitespace. -/
def wlit (a b : String) : RE := .seq (lit a) (.seq wsStar (lit b))

/-- chunk_loader.py `WEED_PATTERNS`, in list order. -/
def WEED_PATTERNS : List RE :=
  [ lit "ryegrass", lit "capeweed", wlit "wild" "radish",
    .seq (lit "wild") (.seq wsStar (.seq (lit "oat") (.opt (.chr 's')))),
    wlit "brome" "grass", wlit "barley" "grass", lit "clover", lit "dock",
    lit "thistle", lit "fumitory", wlit "fat" "hen", lit "charlock",
    wlit "sow" "thistle", wlit "skeleton" "weed", wlit "turnip" "weed",
    .seq (lit "shepherd") (.seq (.opt (.chr (Char.ofNat 39)))
      (.seq (.opt (.chr 's')) (.seq wsStar (lit "purse")))),
    lit "wireweed", lit "medic", lit "marshmallow", lit "sorrel",
    lit "deadnettle", lit "chickweed", lit "pigweed", lit "amaranth",
    lit "burr", lit "caltrop", lit "bindweed", lit "fleabane" ]

/-- chunk_loader.py `CROP_PATTERNS`, in list order. -/
def CROP_PATTERNS : List RE :=
  [ lit "wheat", lit "barley", lit "canola",
    .seq (lit "lupin") (.opt (.chr 's')),
    .seq (lit "oat") (.opt (.chr 's')),
    lit "triticale", lit "pasture", lit "fallow", lit "chickpea",
    .seq (lit "lentil") (.opt (.chr 's')),
    wlit "field" "pea", wlit "faba" "bean", lit "vetch", lit "cereal",
    wlit "grain" "legume" ]

/-- The normalisation applied to each regex match:
`match.group().replace(" ", "").lower()`. -/
def normalizeMention (g : Str) : Str := pyLower (g.filter (fun c => c ≠ ' '))

/-- chunk_loader.py `extract_entity_mentions`: search every pattern in the
lower-cased text, normalise each match, then `list(set(...))` — modelled by
`List.dedup` (Python's set iteration order is unspecified; only membership
and absence of duplicates are relied on). -/
def extract_entity_mentions (text : Str) : List Str × List Str :=
  let text_lower := pyLower text
  let weeds := WEED_PATTERNS.filterMap (fun p => (pySearch p text_lower).map normalizeMention)
  let crops := CROP_PATTERNS.filterMap (fun p => (pySearch p text_lower).map normalizeMention)
  (weeds.dedup, crops.dedup)

/-! ## Graph store model (schema of queries.py / chunk_loader.py)

Nodes are records, relationships are lists of key pairs; keys (`chunk_id`,
`common_name`, `name`, `product_number`) are assumed unique per node kind. -/

structure ChunkNode where
  chunk_id : Str
  text : Str := []
  chunk_type : Str := []
  parent_section : Str := []
  product_number : Str := []
deriving DecidableEq

structure WeedNode where
  common_name : Str
  display_name : Str := []
deriving DecidableEq

structure CropNode where
  name : Str
  display_name : Str := []
deriving DecidableEq

structure DocNode where
  product_number : Str
deriving DecidableEq

structure HerbNode where
  product_number : Str
  product_name : Str := []
deriving DecidableEq

structure GraphDb where
  chunks : List ChunkNode := []
  weeds : List WeedNode := []
  crops : List CropNode := []
  docs : List DocNode := []
  herbs : List HerbNode := []
  mentions_weed : List (Str × Str) := []
  contains_chunk : List (Str × Str) := []
  has_label : List (Str × Str) := []
deriving DecidableEq

def findChunkNode (g : GraphDb) (cid : Str) : Option ChunkNode :=
  g.chunks.find? (fun c => c.chunk_id = cid)

def findWeedNode (g : GraphDb) (wname : Str) : Option WeedNode :=
  g.weeds.find? (fun w => w.common_name = wname)

/-- Cypher `OPTIONAL MATCH` row semantics: an empty match set keeps the row
with a null binding, otherwise one row per match. -/
def optRows {α : Type} (l : List α) : List (Option α) :=
  if l.isEmpty then [none] else l.map some

/-! ## find_chunks_for_weed (queries.py) -/

/-- A row of the `UNION` in `find_chunks_for_weed`'s Cypher query (`c`, `w`,
`score`).  The two float score literals 1.0 and 0.8 are modelled as exact
rationals; only their order matters. -/
structure URow where
  c : ChunkNode
  w : Option WeedNode
  score : ℚ
deriving DecidableEq

/-- The final projected row of `find_chunks_for_weed` (`section` is the
Cypher alias of `c.parent_section`). -/
structure WeedQueryRow where
  chunk_id : Str
  text : Str
  chunk_type : Str
  parent_section : Str
  product_number : Str
  product_name : Option Str
  matched_weed : Option Str
  score : ℚ
deriving DecidableEq

/-- `ORDER BY score DESC` as a (stable) comparison relation. -/
def scoreGE (a b : WeedQueryRow) : Prop := b.score ≤ a.score

instance : DecidableRel scoreGE := fun a b => inferInstanceAs (Decidable (b.score ≤ a.score))

instance : IsTotal WeedQueryRow scoreGE := ⟨fun a b => le_total b.score a.score⟩

instance : IsTrans WeedQueryRow scoreGE := ⟨fun _ _ _ h1 h2 => le_trans h2 h1⟩

/-- The lines of the Cypher text `find_chunks_for_weed` builds (queries.py
lines 620-647), verbatim — including the comment lines and the blank
indentation lines of the Python triple-quoted literal. -/
def findChunksForWeedQueryLines : List Str :=
  [ str "    // First find chunks with MENTIONS relationship",
    str "    MATCH (c:Chunk)-[:MENTIONS]->(w:Weed)",
    str "    WHERE toLower(w.common_name) CONTAINS toLower($weed_name)",
    str "       OR toLower(w.display_name) CONTAINS toLower($weed_name)",
    str "    WITH c, w, 1.0 AS score",
    str "    ",
    str "    UNION",
    str "    ",
    str "    // Also find chunks with text match (fallback)",
    str "    MATCH (c:Chunk)",
    str "    WHERE toLower(c.text) CONTAINS toLower($weed_name)",
    str "    WITH c, null AS w, 0.8 AS score",
    str "    ",
    str "    WITH c, w, score",
    str "    OPTIONAL MATCH (d:Document)-[:CONTAINS_CHUNK]->(c)",
    str "    OPTIONAL MATCH (h:Herbicide)-[:HAS_LABEL]->(d)",
    str "    RETURN c.chunk_id AS chunk_id,",
    str "           c.text AS text,",
    str "           c.chunk_type AS chunk_type,",
    str "           c.parent_section AS section,",
    str "           c.product_number AS product_number,",
    str "           h.product_name AS product_name,",
    str "           w.common_name AS matched_weed,",
    str "           score",
    str "    ORDER BY score DESC",
    str "    LIMIT $k" ]

/-- The query string exactly as Python builds it: the triple-quoted
literal's leading newline, the lines joined by newlines, and the closing
indentation. -/
def findChunksForWeedQuery : Str :=
  str "\n" ++ joinSep (str "\n") findChunksForWeedQueryLines ++ str "\n    "

/-- The text strictly before the first occurrence of `kw`. -/
def textBefore (kw : Str) : Str → Str
  | [] => []
  | s@(c :: rest) => if beginsWith kw s then [] else c :: textBefore kw rest

/-- The text strictly after the first occurrence of `kw` (empty when `kw`
does not occur). -/
def textAfter (kw : Str) : Str → Str
  | [] => []
  | s@(_ :: rest) => if beginsWith kw s then s.drop kw.length else textAfter kw rest

/-- The union parts of a query holding at most one `UNION` (this query has
exactly one): the text before and after the keyword. -/
def unionParts (q : Str) : List Str :=
  if pyIn (str "UNION") q then [textBefore (str "UNION") q, textAfter (str "UNION") q]
  else [q]

/-- The necessary side of Neo4j's union rule: every union part must conclude
with a `RETURN` clause, so each part must at least contain the `RETURN`
keyword.  A query failing this check is rejected by the server's parser
before anything runs. -/
def unionPartsContainReturn (q : Str) : Bool :=
  (unionParts q).all (fun part => pyIn (str "RETURN") part)

/-- The error `session.run` raises when the server rejects the query text. -/
inductive Neo4jError where
  | cypherError
deriving DecidableEq

/-- The relational meaning the two arms of `find_chunks_for_weed`'s query
were evidently written to denote (and the spec describes): MENTIONS-backed
rows at score 1.0, substring text matches at score 0.8, a deduplicating
`UNION`, optional Document/Herbicide joins, `ORDER BY score DESC LIMIT k`.
The query as sent never executes (see `find_chunks_for_weed`), so this is
the function's intent, not its behavior. -/
def find_chunks_for_weed_rows (g : GraphDb) (weed_name : Str) (k : Nat := 10) :
    List WeedQueryRow :=
  let nameL := pyLower weed_name
  let arm1 : List URow := g.mentions_weed.filterMap (fun e =>
    match findChunkNode g e.1, findWeedNode g e.2 with
    | some c, some w =>
      if pyIn nameL (pyLower w.common_name) || pyIn nameL (pyLower w.display_name)
      then some ⟨c, some w, 1⟩ else none
    | _, _ => none)
  let arm2 : List URow := g.chunks.filterMap (fun c =>
    if pyIn nameL (pyLower c.text) then some ⟨c, none, mkRat 4 5⟩ else none)
  let unioned := (arm1 ++ arm2).dedup
  let projected := unioned.flatMap (fun row =>
    (optRows (g.docs.filter (fun d => (d.product_number, row.c.chunk_id) ∈ g.contains_chunk))).flatMap
      (fun dOpt =>
        (optRows (match dOpt with
          | none => []
          | some d => g.herbs.filter (fun h => (h.product_number, d.product_number) ∈ g.has_label))).map
          (fun hOpt =>
            { chunk_id := row.c.chunk_id
              text := row.c.text
              chunk_type := row.c.chunk_type
              parent_section := row.c.parent_section
              product_number := row.c.product_number
              product_name := hOpt.map (fun h => h.product_name)
              matched_weed := row.w.map (fun w => w.common_name)
              score := row.score })))
  (projected.insertionSort scoreGE).take k

/-- queries.py `find_chunks_for_weed`: builds `findChunksForWeedQuery` and
hands it to `session.run`.  The server parses the query before running it;
this query's first `UNION` part concludes with `WITH c, w, 1.0 AS score` and
holds no `RETURN` clause at all, violating the union rule, so the call
raises instead of returning rows. -/
def find_chunks_for_weed (g : GraphDb) (weed_name : Str) (k : Nat := 10) :
    Except Neo4jError (List WeedQueryRow) :=
  if unionPartsContainReturn findChunksForWeedQuery
  then Except.ok (find_chunks_for_weed_rows g weed_name k)
  else Except.error Neo4jError.cypherError

/-! ## hybrid_search (queries.py)

The two stages run against the store; the store calls are modelled as
function parameters (`vectorSearch` for `vector_search_chunks`,
`graphTraverse` for `graph_traverse_from_chunks`, `embedText` for the
embedding model), and the queries actually issued are returned as an
event trace. -/

inductive QueryEvent where
  | vectorQuery
  | graphQuery
deriving DecidableEq

structure HybridResult (R GC : Type) where
  query : Str
  chunks : List R
  graph_context : Option GC := none

/-- queries.py `hybrid_search`: embed the query, always run vector search,
and traverse the graph only when `expand_graph` is set and the vector stage
returned at least one row (`if expand_graph and vector_results:`). -/
def hybrid_search {Emb R GC : Type} (embedText : Str → Emb)
    (vectorSearch : Emb → Nat → Option Str → List R) (chunkIdOf : R → Str)
    (graphTraverse : List Str → GC) (query_text : Str) (k : Nat := 5)
    (expand_graph : Bool := true) (chunk_type : Option Str := none) :
    HybridResult R GC × List QueryEvent :=
  let query_embedding := embedText query_text
  let vector_results := vectorSearch query_embedding k chunk_type
  if expand_graph && !vector_results.isEmpty then
    ({ query := query_text
       chunks := vector_results
       graph_context := some (graphTraverse (vector_results.map chunkIdOf)) },
     [QueryEvent.vectorQuery, QueryEvent.graphQuery])
  else
    ({ query := query_text, chunks := vector_results }, [QueryEvent.vectorQuery])

/-! ## The chunk loader (chunk_loader.py)

`load_chunks_from_docling` is modelled as a pure function from the parsed
document and the pre-existing entity graph to its statistics plus the
ordered trace of Cypher write operations it issues.  The embedding model is
the `embed_batch` parameter. -/

inductive WriteOp (E : Type) where
  | mergeDocument (product_number source_file : Str) (chunk_count : Nat)
  | linkHerbicide (product_number : Str)
  | mergeChunk (chunk : Chunk) (embedding : E)
  | mergeNext (prev_id curr_id : Str)
  | mergeMentionsWeed (chunk_id weed_pattern : Str)
  | mergeMentionsCrop (chunk_id crop_pattern : Str)
deriving DecidableEq

/-- Rows matched (hence `count(*)` returned) by the weed MENTIONS merge:
weeds whose lower-cased common or display name contains the pattern. -/
def weedLinkCount (g : GraphDb) (pat : Str) : Nat :=
  (g.weeds.filter (fun w => pyIn pat (pyLower w.common_name) || pyIn pat (pyLower w.display_name))).length

/-- Same for crops (`cr.name` / `cr.display_name`). -/
def cropLinkCount (g : GraphDb) (pat : Str) : Nat :=
  (g.crops.filter (fun cr => pyIn pat (pyLower cr.name) || pyIn pat (pyLower cr.display_name))).length

structure LoadStats where
  product_number : Str := []
  chunks : Nat := 0
  next_rels : Nat := 0
  mentions_weeds : Nat := 0
  mentions_crops : Nat := 0
  error : Option Str := none
deriving DecidableEq

/-- The loader's per-chunk loop (steps 3-5 of `load_chunks_from_docling`),
carrying the previous chunk's id exactly as `chunks[i - 1]` does: for each
`(chunk, embedding)` pair, merge the Chunk node, then (except for the first
chunk) the NEXT edge from the previous chunk, then the MENTIONS merges.
Returns (write ops, next_rels, mentions_weeds, mentions_crops). -/
def chunkWriteOps {E : Type} (link_entities : Bool) (g : GraphDb) :
    Option Str → List (Chunk × E) → List (WriteOp E) × Nat × Nat × Nat
  | _, [] => ([], 0, 0, 0)
  | prevId, ce :: rest =>
    let c := ce.1
    let nextOps : List (WriteOp E) :=
      match prevId with
      | some pid => [.mergeNext pid c.chunk_id]
      | none => []
    let em := extract_entity_mentions c.text
    let mentionOps : List (WriteOp E) :=
      if link_entities then
        em.1.map (fun w => .mergeMentionsWeed c.chunk_id w) ++
        em.2.map (fun cr => .mergeMentionsCrop c.chunk_id cr)
      else []
    let wCount := if link_entities then (em.1.map (weedLinkCount g)).sum else 0
    let cCount := if link_entities then (em.2.map (cropLinkCount g)).sum else 0
    let restR := chunkWriteOps link_entities g (some c.chunk_id) rest
    (.mergeChunk c ce.2 :: (nextOps ++ mentionOps ++ restR.1),
     nextOps.length + restR.2.1, wCount + restR.2.2.1, cCount + restR.2.2.2)

/-- chunk_loader.py `load_chunks_from_docling`: chunk the document (default
token budget), embed every chunk's contextualised text in one
`embed_batch` call, then merge the Document node, the Herbicide link, and
each chunk with its NEXT edge and MENTIONS edges in order. -/
def load_chunks_from_docling {E : Type} (H : Str → Str)
    (embed_batch : List Str → Nat → List E) (g : GraphDb) (pn sf : Str)
    (tables : List Table) (batch_size : Nat := 50) (link_entities : Bool := true) :
    LoadStats × List (WriteOp E) :=
  let chunks := chunk_docling_json H pn sf tables
  match chunks with
  | [] => ({ error := some (str "No chunks generated") }, [])
  | c0 :: _ =>
    let contextualized_texts := chunks.map Chunk.contextualize
    let embeddings := embed_batch contextualized_texts batch_size
    let body := chunkWriteOps link_entities g none (chunks.zip embeddings)
    ({ product_number := c0.product_number
       chunks := chunks.length
       next_rels := body.2.1
       mentions_weeds := body.2.2.1
       mentions_crops := body.2.2.2 },
     WriteOp.mergeDocument c0.product_number sf chunks.length ::
       WriteOp.linkHerbicide c0.product_number :: body.1)

/-! ## Spec-side definitions (for refinement comparisons)

These two definitions follow the *spec's words* (not the source) and exist
only to be compared against the source-derived definitions above. -/

/-- The spec's sub-group row count: `ceil(total data rows /
ceil(estimated tokens / max tokens))` (the code instead uses floor division
and `max 1 (len // (est // max + 1))`). -/
def specRowsPerChunk (t : Table) (maxTok : Nat) : Nat :=
  ceilDiv (tableDataRows t).length (ceilDiv (countWords (chunkText t)) maxTok)

/-- The spec's weed-table heuristic: at least 3 rows, and either a weed
keyword in column 1 or the rate pattern anywhere in the block — with no
restriction to the first five rows (the code scans only `rows[:5]`). -/
def specWeedHeuristic (t : Table) : Bool :=
  decide (3 ≤ t.rows.length) &&
  (t.rows.any (fun row =>
     match row with
     | [] => false
     | c0 :: _ => weed_indicators.any (fun ind => pyIn ind (pyLower c0))) ||
   t.rows.any (fun row => row.any (fun cell => reTest ratePattern (pyLower cell))))

/-! ## Concrete inputs for witnesses and counterexamples -/

/-- The spec's example markdown: a 3-row weed-control table with a rate
pattern but no weed keyword in column 1. -/
def exMarkdown : Str := str "| Crop | Weed | Rate |\n|...|\n| Wheat | Wild radish | 200mL/ha |"

/-- The spec's example block: `exMarkdown`, 3 rows, `column_count = 3`. -/
def exTable : Table :=
  { markdown := exMarkdown
    rows := [[str "Crop", str "Weed", str "Rate"], [str "..."],
             [str "Wheat", str "Wild radish", str "200mL/ha"]]
    column_count := some 3 }

/-- A 5-row, 3-column table whose 4-word, 20-character markdown exceeds a
token budget of 2: the chunker's split branch runs with
`rows_per_chunk = max(1, 4 // (4 // 2 + 1)) = 1`. -/
def spTable : Table :=
  { markdown := str "aaaaaaa bbbb cc dddd"
    rows := [[str "h1", str "h2", str "h3"], [str "a", str "b", str "c"],
             [str "d", str "e", str "f"], [str "g", str "h", str "i"],
             [str "j", str "k", str "l"]]
    column_count := some 3 }

/-- A 6-row block with no weed keyword in any first column and the rate
pattern only in row 6 — outside the five rows `is_weed_table` scans. -/
def bigTable : Table :=
  { rows := [[str "alphaone"], [str "betatwo"], [str "gammathree"], [str "deltafour"],
             [str "epsfive"], [str "spray 200 mL/ha now"]] }

/-- A 513-word text: one over the default 512-token budget. -/
def longText : Str := joinSep (str " ") (List.replicate 513 (str "aa"))

/-- A 3-row table whose rendered text exceeds the default token budget:
too few rows for the split branch, so a single chunk is emitted. -/
def wideTable : Table :=
  { markdown := longText
    rows := [[str "r1"], [str "r2"], [str "r3"]] }

/-- Is a write op a NEXT-edge merge? -/
def isNextOp {E : Type} : WriteOp E → Bool
  | .mergeNext _ _ => true
  | _ => false

/-- The NEXT-edge merges for a chain of chunk ids: one op per adjacent
pair. -/
def nextOpsOf {E : Type} (ids : List Str) : List (WriteOp E) :=
  (ids.zip ids.tail).map (fun p => WriteOp.mergeNext p.1 p.2)

/-- The prefix `contextualize` prepends to the raw text: every bracketed
marker followed by its joining space. -/
def context_markers (c : Chunk) : Str :=
  ((chunkParts c).map (fun p => p ++ str " ")).flatten

/-- A one-chunk table for the loader examples. -/
def docTable (s : String) : Table := { markdown := str s }

/-- Five blocks yielding exactly five sequential chunks for one document. -/
def fiveTables : List Table :=
  [docTable "aaaa bbbb cccc dddd e1", docTable "aaaa bbbb cccc dddd e2",
   docTable "aaaa bbbb cccc dddd e3", docTable "aaaa bbbb cccc dddd e4",
   docTable "aaaa bbbb cccc dddd e5"]

/-- The C6 scenario corpus: three chunks linked to the weed `ryegrass` by
MENTIONS, plus one chunk with the word only in free text and no MENTIONS
edge — the concrete store on which the spec's example call is evaluated. -/
def corpusB : GraphDb :=
  { chunks := [ { chunk_id := str "c1", text := str "annual rye grass control" },
                { chunk_id := str "c2", text := str "apply to rye grass early" },
                { chunk_id := str "c3", text := str "grass weeds table" },
                { chunk_id := str "c4", text := str "kills ryegrass in wheat" } ]
    weeds := [ { common_name := str "ryegrass", display_name := str "Annual Ryegrass" } ]
    mentions_weed := [(str "c1", str "ryegrass"), (str "c2", str "ryegrass"),
                      (str "c3", str "ryegrass")] }

/-! ## Basic lemmas about the chunker -/

lemma length_pyRange (stop step : Nat) : (pyRange stop step).length = ceilDiv stop step := by
  simp [pyRange]

lemma processTable_map_sequence (H : Str → Str) (pn sf : Str) (maxTok seq : Nat)
    (cur : Option Str) (t : Table) :
    ((processTable H pn sf maxTok seq cur t).1).map Chunk.sequence_order =
      List.range' seq ((processTable H pn sf maxTok seq cur t).1).length := by
  unfold processTable
  split_ifs with h1 h2 h3
  · simp
  · simp
  · simp only [splitChunks, List.map_map]
    have hf : (Chunk.sequence_order ∘ subChunk H pn sf maxTok seq (sectionAfter t cur) t) =
        (fun j => seq + j) ∘ Prod.fst := rfl
    rw [hf, ← List.map_map, List.enum_map_fst, ← List.range'_eq_map_range]
    simp [List.enum_length]
  · simp [singleChunk, List.range']

lemma chunkTables_map_sequence (H : Str → Str) (pn sf : Str) (maxTok : Nat) :
    ∀ (ts : List Table) (seq : Nat) (cur : Option Str),
      (chunkTables H pn sf maxTok seq cur ts).map Chunk.sequence_order =
        List.range' seq (chunkTables H pn sf maxTok seq cur ts).length := by
  intro ts
  induction ts with
  | nil => intro seq cur; simp [chunkTables]
  | cons t ts ih =>
    intro seq cur
    simp only [chunkTables, List.map_append, List.length_append]
    rw [processTable_map_sequence, ih]
    have := List.range'_append seq ((processTable H pn sf maxTok seq cur t).1).length
      ((chunkTables H pn sf maxTok (seq + ((processTable H pn sf maxTok seq cur t).1).length)
        (processTable H pn sf maxTok seq cur t).2 ts).length) 1
    simp only [one_mul] at this
    rw [this, Nat.add_comm]

lemma chunk_docling_json_map_sequence (H : Str → Str) (pn sf : Str) (tables : List Table)
    (maxTok : Nat) :
    (chunk_docling_json H pn sf tables maxTok).map Chunk.sequence_order =
      List.range (chunk_docling_json H pn sf tables maxTok).length := by
  rw [chunk_docling_json, chunkTables_map_sequence, List.range_eq_range']

/-- **C1** (confirmed): for every document (any table list, any token
budget), the `sequence_order` values of the chunks yielded by
`chunk_docling_json` are strictly increasing, contain no duplicates, and
start at 0 (the first chunk, when one exists, has `sequence_order = 0`). -/
theorem chunker_sequence_orders_strictly_increasing (H : Str → Str) (pn sf : Str)
    (tables : List Table) (maxTok : Nat) :
    (((chunk_docling_json H pn sf tables maxTok).map Chunk.sequence_order).Pairwise (· < ·)) ∧
    (((chunk_docling_json H pn sf tables maxTok).map Chunk.sequence_order).Nodup) ∧
    (((chunk_docling_json H pn sf tables maxTok).map Chunk.sequence_order).headD 0 = 0) := by
  rw [chunk_docling_json_map_sequence]
  refine ⟨List.pairwise_lt_range _, List.nodup_range _, ?_⟩
  cases h : (chunk_docling_json H pn sf tables maxTok).length with
  | zero => simp
  | succ n => rw [List.range_succ_eq_map]; rfl

/-! ## Arithmetic of the split loop -/

lemma ceilDiv_zero_left (r : Nat) : ceilDiv 0 r = 0 := by
  unfold ceilDiv
  rcases Nat.eq_zero_or_pos r with h | h
  · simp [h]
  · exact Nat.div_eq_of_lt (by omega)

lemma one_le_ceilDiv {d r : Nat} (hr : 1 ≤ r) (hd : 1 ≤ d) : 1 ≤ ceilDiv d r := by
  unfold ceilDiv
  rw [Nat.le_div_iff_mul_le (by omega)]
  omega

lemma two_le_ceilDiv {d r : Nat} (hr : 1 ≤ r) (h : r < d) : 2 ≤ ceilDiv d r := by
  unfold ceilDiv
  rw [Nat.le_div_iff_mul_le (by omega)]
  omega

lemma ceilDiv_succ_form {d r : Nat} (hr : 1 ≤ r) (hd : 1 ≤ d) :
    ceilDiv d r = (d - 1) / r + 1 := by
  unfold ceilDiv
  have h : d + r - 1 = (d - 1) + r := by omega
  rw [h, Nat.add_div_right _ (by omega)]

lemma ceilDiv_cons {d r : Nat} (hr : 1 ≤ r) (hd : 1 ≤ d) :
    ceilDiv d r = ceilDiv (d - r) r + 1 := by
  rcases le_or_lt d r with hle | hlt
  · have h0 : d - r = 0 := by omega
    rw [h0, ceilDiv_zero_left, ceilDiv_succ_form hr hd, Nat.div_eq_of_lt (by omega)]
  · rw [ceilDiv_succ_form hr hd, ceilDiv_succ_form hr (by omega)]
    have h2 : d - 1 = (d - r - 1) + r := by omega
    rw [h2, Nat.add_div_right _ (by omega)]

lemma getElem_pyRange {stop step : Nat} (j : Nat) (h : j < (pyRange stop step).length) :
    (pyRange stop step)[j] = j * step := by
  simp [pyRange]

lemma pyRange_index_lt {d r j : Nat} (hr : 1 ≤ r) (hd : 1 ≤ d) (hj : j < ceilDiv d r) :
    j * r < d := by
  have hj' : j ≤ (d - 1) / r := by
    rw [ceilDiv_succ_form hr hd] at hj
    omega
  calc j * r ≤ (d - 1) / r * r := Nat.mul_le_mul_right r hj'
    _ ≤ d - 1 := Nat.div_mul_le_self _ _
    _ < d := by omega

lemma pyRange_cons {d r : Nat} (hr : 1 ≤ r) (hd : 1 ≤ d) :
    pyRange d r = 0 :: (pyRange (d - r) r).map (fun i => i + r) := by
  unfold pyRange
  rw [ceilDiv_cons hr hd, List.range_succ_eq_map]
  simp only [List.map_cons, Nat.zero_mul, List.map_map]
  congr 1
  apply List.map_congr_left
  intro j _
  simp [Nat.succ_mul]

lemma pyRange_slices_flatten {α : Type} (r : Nat) (hr : 1 ≤ r) (l : List α) :
    ((pyRange l.length r).map (fun i => (l.drop i).take r)).flatten = l := by
  suffices h : ∀ (n : Nat) (l : List α), l.length ≤ n →
      ((pyRange l.length r).map (fun i => (l.drop i).take r)).flatten = l by
    exact h l.length l le_rfl
  intro n
  induction n with
  | zero =>
    intro l hl
    have : l = [] := List.length_eq_zero.mp (by omega)
    subst this
    simp [pyRange, ceilDiv_zero_left]
  | succ n ih =>
    intro l hl
    cases l with
    | nil => simp [pyRange, ceilDiv_zero_left]
    | cons a l' =>
      have hd : 1 ≤ (a :: l').length := by simp
      rw [pyRange_cons hr hd]
      simp only [List.map_cons, List.map_map, List.flatten_cons, List.drop_zero]
      have hcomp : ((fun i => ((a :: l').drop i).take r) ∘ fun i => i + r) =
          (fun i => (((a :: l').drop r).drop i).take r) := by
        funext i
        simp only [Function.comp_apply, List.drop_drop]
        rw [Nat.add_comm]
      rw [hcomp]
      have hlen : ((a :: l').drop r).length = (a :: l').length - r := List.length_drop r _
      have hrec := ih ((a :: l').drop r) (by simp at hl ⊢; omega)
      rw [hlen] at hrec
      rw [hrec]
      exact List.take_append_drop r (a :: l')

/-! ## The split branch characterised -/

lemma not_both_empty_of_text_long {t : Table} (h : 20 ≤ (pyStrip (chunkText t)).length) :
    ¬ (t.markdown = [] ∧ t.rows = []) := by
  rintro ⟨hm, hr⟩
  rw [chunkText, hm, hr] at h
  simp [joinSep, pyStrip] at h

lemma chunk_docling_single (H : Str → Str) (pn sf : Str) (maxTok : Nat) (t : Table) :
    chunk_docling_json H pn sf [t] maxTok = (processTable H pn sf maxTok 0 none t).1 := by
  simp [chunk_docling_json, chunkTables]

lemma processTable_split (H : Str → Str) (pn sf : Str) (t : Table) (maxTok : Nat)
    (seq : Nat) (cur : Option Str)
    (hlen : 20 ≤ (pyStrip (chunkText t)).length)
    (hest : maxTok < countWords (chunkText t)) (hrows : 3 < t.rows.length) :
    (processTable H pn sf maxTok seq cur t).1 =
      splitChunks H pn sf maxTok seq (sectionAfter t cur) t := by
  unfold processTable
  rw [if_neg (not_both_empty_of_text_long hlen), if_neg (by omega), if_pos ⟨hest, hrows⟩]

lemma tableDataRows_length_ge {t : Table} (hrows : 3 < t.rows.length) :
    3 ≤ (tableDataRows t).length := by
  unfold tableDataRows
  split
  · rw [List.length_tail]; omega
  · omega

lemma one_le_rowsPerChunk (t : Table) (maxTok : Nat) : 1 ≤ rowsPerChunk t maxTok :=
  le_max_left 1 _

lemma two_le_split_divisor {t : Table} {maxTok : Nat} (hm : 1 ≤ maxTok)
    (hest : maxTok < countWords (chunkText t)) :
    2 ≤ countWords (chunkText t) / maxTok + 1 := by
  have : 1 ≤ countWords (chunkText t) / maxTok := by
    rw [Nat.le_div_iff_mul_le (by omega)]
    omega
  omega

lemma rowsPerChunk_lt_data {t : Table} {maxTok : Nat} (hm : 1 ≤ maxTok)
    (hest : maxTok < countWords (chunkText t)) (hrows : 3 < t.rows.length) :
    rowsPerChunk t maxTok < (tableDataRows t).length := by
  have hd := tableDataRows_length_ge hrows
  have hdiv := two_le_split_divisor hm hest
  unfold rowsPerChunk
  rcases Nat.eq_zero_or_pos ((tableDataRows t).length / (countWords (chunkText t) / maxTok + 1))
    with h0 | hpos
  · rw [h0]; omega
  · rw [Nat.max_eq_right hpos]
    exact Nat.div_lt_self (by omega) (by omega)

lemma splitChunks_length (H : Str → Str) (pn sf : Str) (maxTok seq : Nat)
    (cur' : Option Str) (t : Table) :
    (splitChunks H pn sf maxTok seq cur' t).length =
      ceilDiv (tableDataRows t).length (rowsPerChunk t maxTok) := by
  simp [splitChunks, pyRange]

lemma splitChunks_get (H : Str → Str) (pn sf : Str) (maxTok seq : Nat)
    (cur' : Option Str) (t : Table) (j : Nat)
    (hj : j < (splitChunks H pn sf maxTok seq cur' t).length) :
    (splitChunks H pn sf maxTok seq cur' t).get ⟨j, hj⟩ =
      subChunk H pn sf maxTok seq cur' t (j, j * rowsPerChunk t maxTok) := by
  have hj1 : j < (pyRange (tableDataRows t).length (rowsPerChunk t maxTok)).enum.length := by
    simpa [splitChunks] using hj
  have hj2 : j < (pyRange (tableDataRows t).length (rowsPerChunk t maxTok)).length := by
    simpa using hj1
  simp only [splitChunks, List.get_eq_getElem, List.getElem_map, List.getElem_enum]
  rw [getElem_pyRange j hj2]

lemma beginsWith_append (p s : Str) : beginsWith p (p ++ s) = true := by
  induction p with
  | nil => rfl
  | cons c cs ih => simp [beginsWith, ih]

lemma subChunkRows_length (t : Table) (maxTok i : Nat) :
    (subChunkRows t maxTok i).length =
      min (rowsPerChunk t maxTok) ((tableDataRows t).length - i) := by
  simp [subChunkRows]

lemma splitChunks_rowcount_sum (H : Str → Str) (pn sf : Str) (maxTok seq : Nat)
    (cur' : Option Str) (t : Table) :
    ((splitChunks H pn sf maxTok seq cur' t).map (fun c => c.row_count.getD 0)).sum =
      (tableDataRows t).length := by
  simp only [splitChunks, List.map_map]
  have hf : ((fun c : Chunk => c.row_count.getD 0) ∘ subChunk H pn sf maxTok seq cur' t) =
      (fun i => (subChunkRows t maxTok i).length) ∘ Prod.snd := rfl
  rw [hf, ← List.map_map, List.enum_map_snd]
  have hg : (fun i => (subChunkRows t maxTok i).length) =
      List.length ∘ (fun i => ((tableDataRows t).drop i).take (rowsPerChunk t maxTok)) := rfl
  rw [hg, ← List.map_map, ← List.length_flatten,
    pyRange_slices_flatten _ (one_le_rowsPerChunk t maxTok)]

lemma splitChunks_text_header (H : Str → Str) (pn sf : Str) (maxTok seq : Nat)
    (cur' : Option Str) (t : Table) (hh : tableHeaders t ≠ []) (c : Chunk)
    (hc : c ∈ splitChunks H pn sf maxTok seq cur' t) :
    beginsWith (joinSep (str " | ") (t.rows.headD []) ++ str "\n") c.text = true := by
  obtain ⟨ji, _, rfl⟩ := List.mem_map.mp hc
  show beginsWith _ (subChunkText t maxTok ji.2) = true
  unfold subChunkText
  rw [if_pos hh]
  exact beginsWith_append _ _

lemma chunk_type_of_mem (H : Str → Str) (pn sf : Str) (maxTok seq : Nat) (cur : Option Str)
    (t : Table) (c : Chunk) (hc : c ∈ (processTable H pn sf maxTok seq cur t).1) :
    c.chunk_type = tableChunkType t := by
  unfold processTable at hc
  split_ifs at hc
  · simp at hc
  · simp at hc
  · simp only [splitChunks] at hc
    obtain ⟨ji, _, rfl⟩ := List.mem_map.mp hc
    rfl
  · simp at hc
    subst hc
    rfl

lemma tableChunkType_eq_weed_iff (t : Table) :
    (tableChunkType t = str "weed_table") ↔ is_weed_table t = true := by
  unfold tableChunkType
  split_ifs with h1 h2 h3
  · simp [h1]
  · exact ⟨fun he => absurd he (by decide), fun hw => absurd hw h1⟩
  · exact ⟨fun he => absurd he (by decide), fun hw => absurd hw h1⟩
  · exact ⟨fun he => absurd he (by decide), fun hw => absurd hw h1⟩

/-! ## Claims about the large-table split -/

/-- **C2** (corrected amendment): in the split branch (word estimate above
the budget, more than 3 rows, text past the 20-character filter, budget at
least 1), the data rows are split into groups of
`rows_per_chunk = max 1 (len(data_rows) / (est / max + 1))` (floor
divisions — not the spec's ceiling formula, cf. the counterexample): the
number of chunks is `ceil(len(data_rows) / rows_per_chunk)`, the `j`-th
chunk covers `min rows_per_chunk (len - j * rows_per_chunk)` whole data
rows, carries the part-`j`-suffixed identifier, begins with the re-attached
header row when one is present, and the chunks get *consecutive distinct*
sequence numbers `0, 1, 2, …` (not one shared number). -/
theorem chunker_split_shape (H : Str → Str) (pn sf : Str) (t : Table) (maxTok : Nat)
    (_hm : 1 ≤ maxTok) (hlen : 20 ≤ (pyStrip (chunkText t)).length)
    (hest : maxTok < countWords (chunkText t)) (hrows : 3 < t.rows.length) :
    (chunk_docling_json H pn sf [t] maxTok).length =
      ceilDiv (tableDataRows t).length (rowsPerChunk t maxTok) ∧
    (chunk_docling_json H pn sf [t] maxTok).map Chunk.sequence_order =
      List.range (chunk_docling_json H pn sf [t] maxTok).length ∧
    ∀ j (hj : j < (chunk_docling_json H pn sf [t] maxTok).length),
      ((chunk_docling_json H pn sf [t] maxTok).get ⟨j, hj⟩).row_count =
          some (min (rowsPerChunk t maxTok)
            ((tableDataRows t).length - j * rowsPerChunk t maxTok)) ∧
      ((chunk_docling_json H pn sf [t] maxTok).get ⟨j, hj⟩).chunk_id =
          pn ++ str "-" ++ tableId t 0 ++ str "-part" ++ natStr j ++ str "-" ++ tableHash H pn t 0 ∧
      (tableHeaders t ≠ [] →
        beginsWith (joinSep (str " | ") (t.rows.headD []) ++ str "\n")
          ((chunk_docling_json H pn sf [t] maxTok).get ⟨j, hj⟩).text = true) := by
  have hsplit := processTable_split H pn sf t maxTok 0 none hlen hest hrows
  have hr1 := one_le_rowsPerChunk t maxTok
  constructor
  · rw [chunk_docling_single, hsplit, splitChunks_length]
  constructor
  · exact chunk_docling_json_map_sequence H pn sf [t] maxTok
  · rw [chunk_docling_single, hsplit]
    intro j hj'
    rw [splitChunks_get H pn sf maxTok 0 (sectionAfter t none) t j hj']
    refine ⟨?_, ?_, ?_⟩
    · show some (subChunkRows t maxTok (j * rowsPerChunk t maxTok)).length = _
      rw [subChunkRows_length]
    · show pn ++ str "-" ++ tableId t 0 ++ str "-part"
          ++ natStr (j * rowsPerChunk t maxTok / rowsPerChunk t maxTok) ++ str "-"
          ++ tableHash H pn t 0 = _
      rw [Nat.mul_div_cancel j (by omega)]
    · intro hh
      have hmem : subChunk H pn sf maxTok 0 (sectionAfter t none) t
          (j, j * rowsPerChunk t maxTok) ∈ splitChunks H pn sf maxTok 0 (sectionAfter t none) t := by
        rw [← splitChunks_get H pn sf maxTok 0 (sectionAfter t none) t j hj']
        exact List.get_mem _ _ _
      exact splitChunks_text_header H pn sf maxTok 0 _ t hh _ hmem

/-- **C2** witness: at `spTable` with a budget of 2 tokens (estimate 4,
data rows 4, `rows_per_chunk = 1`), the split branch emits 4 one-row chunks
`part0 … part3` with sequence numbers 0-3, all starting with the header. -/
theorem chunker_split_shape_witness :
    (chunk_docling_json (fun _ => str "h") (str "P") (str "f") [spTable] 2).length =
      ceilDiv (tableDataRows spTable).length (rowsPerChunk spTable 2) ∧
    (chunk_docling_json (fun _ => str "h") (str "P") (str "f") [spTable] 2).map
      Chunk.sequence_order =
      List.range (chunk_docling_json (fun _ => str "h") (str "P") (str "f") [spTable] 2).length ∧
    ∀ j (hj : j < (chunk_docling_json (fun _ => str "h") (str "P") (str "f") [spTable] 2).length),
      ((chunk_docling_json (fun _ => str "h") (str "P") (str "f") [spTable] 2).get ⟨j, hj⟩).row_count =
          some (min (rowsPerChunk spTable 2)
            ((tableDataRows spTable).length - j * rowsPerChunk spTable 2)) ∧
      ((chunk_docling_json (fun _ => str "h") (str "P") (str "f") [spTable] 2).get ⟨j, hj⟩).chunk_id =
          str "P" ++ str "-" ++ tableId spTable 0 ++ str "-part" ++ natStr j ++ str "-"
            ++ tableHash (fun _ => str "h") (str "P") spTable 0 ∧
      (tableHeaders spTable ≠ [] →
        beginsWith (joinSep (str " | ") (spTable.rows.headD []) ++ str "\n")
          ((chunk_docling_json (fun _ => str "h") (str "P") (str "f") [spTable] 2).get ⟨j, hj⟩).text
          = true) :=
  chunker_split_shape (fun _ => str "h") (str "P") (str "f") spTable 2
    (by decide) (by decide) (by decide) (by decide)

/-- **C2** counterexample: at `spTable` with budget 2, the spec's formula
`ceil(4 / ceil(4/2)) = 2` disagrees with the code's row groups (all of size
1), and the four sub-chunks carry the distinct sequence numbers 0,1,2,3
rather than one shared number. -/
theorem chunker_split_formula_cex :
    specRowsPerChunk spTable 2 = 2 ∧
    (chunk_docling_json (fun _ => str "h") (str "P") (str "f") [spTable] 2).map Chunk.row_count =
      [some 1, some 1, some 1, some 1] ∧
    (chunk_docling_json (fun _ => str "h") (str "P") (str "f") [spTable] 2).map
      Chunk.sequence_order = [0, 1, 2, 3] := by
  refine ⟨by decide, by decide, by decide⟩

/-- **C3** (corrected amendment): a table whose rendered text exceeds the
token threshold is split *provided it also has more than 3 rows* (and
passes the 20-character filter): then more than one chunk is emitted, the
sub-chunks' row counts sum to the data-row count — the row count minus the
header row exactly when a header is present (`column_count ≥ 3`) — and
when a header is present every sub-chunk's text begins with the
` | `-joined header row. -/
theorem chunker_oversized_table_multi_chunk (H : Str → Str) (pn sf : Str) (t : Table)
    (maxTok : Nat) (hm : 1 ≤ maxTok) (hlen : 20 ≤ (pyStrip (chunkText t)).length)
    (hest : maxTok < countWords (chunkText t)) (hrows : 3 < t.rows.length) :
    1 < (chunk_docling_json H pn sf [t] maxTok).length ∧
    ((chunk_docling_json H pn sf [t] maxTok).map (fun c => c.row_count.getD 0)).sum =
      (tableDataRows t).length ∧
    (tableHeaders t ≠ [] → (tableDataRows t).length = t.rows.length - 1) ∧
    (tableHeaders t = [] → (tableDataRows t).length = t.rows.length) ∧
    (tableHeaders t ≠ [] → ∀ c ∈ chunk_docling_json H pn sf [t] maxTok,
      beginsWith (joinSep (str " | ") (t.rows.headD []) ++ str "\n") c.text = true) := by
  have hsplit := processTable_split H pn sf t maxTok 0 none hlen hest hrows
  have hr1 := one_le_rowsPerChunk t maxTok
  have hd := tableDataRows_length_ge hrows
  refine ⟨?_, ?_, ?_, ?_, ?_⟩
  · rw [chunk_docling_single, hsplit, splitChunks_length]
    exact two_le_ceilDiv hr1 (rowsPerChunk_lt_data hm hest hrows)
  · rw [chunk_docling_single, hsplit]
    exact splitChunks_rowcount_sum H pn sf maxTok 0 _ t
  · intro hh
    unfold tableDataRows
    rw [if_pos hh, List.length_tail]
  · intro hh
    unfold tableDataRows
    rw [if_neg (by simp [hh])]
  · intro hh c hc
    rw [chunk_docling_single, hsplit] at hc
    exact splitChunks_text_header H pn sf maxTok 0 _ t hh c hc

/-- **C3** witness: at `spTable` (5 rows, header present) with budget 2,
four chunks are emitted, their row counts sum to the 4 data rows, and each
text starts with `h1 | h2 | h3`. -/
theorem chunker_oversized_table_multi_chunk_witness :
    1 < (chunk_docling_json (fun _ => str "h") (str "P") (str "f") [spTable] 2).length ∧
    ((chunk_docling_json (fun _ => str "h") (str "P") (str "f") [spTable] 2).map
      (fun c => c.row_count.getD 0)).sum = (tableDataRows spTable).length ∧
    (tableHeaders spTable ≠ [] → (tableDataRows spTable).length = spTable.rows.length - 1) ∧
    (tableHeaders spTable = [] → (tableDataRows spTable).length = spTable.rows.length) ∧
    (tableHeaders spTable ≠ [] →
      ∀ c ∈ chunk_docling_json (fun _ => str "h") (str "P") (str "f") [spTable] 2,
        beginsWith (joinSep (str " | ") (spTable.rows.headD []) ++ str "\n") c.text = true) :=
  chunker_oversized_table_multi_chunk (fun _ => str "h") (str "P") (str "f") spTable 2
    (by decide) (by decide) (by decide) (by decide)

set_option maxRecDepth 200000 in
/-- **C3** counterexample: `wideTable`'s rendered text has 513 words — over
the default 512 threshold — yet only one chunk is emitted, because the
block has just 3 rows: "exceeds the token threshold" alone does not imply
more than one chunk. -/
theorem chunker_oversized_table_single_chunk_cex :
    countWords (chunkText wideTable) = 513 ∧
    wideTable.rows.length = 3 ∧
    (chunk_docling_json (fun _ => str "h") (str "P") (str "f") [wideTable] 512).length = 1 := by
  refine ⟨by decide, by decide, by decide⟩

/-- **C10** (confirmed): in the split branch (budget at least 1, estimate
over budget, more than 3 rows, text past the length filter), the divisor
`est / max + 1` is at least 2, `rows_per_chunk` is at least 1 (so the
`range(0, len, rows_per_chunk)` loop is well-defined and, being a bounded
range, terminates — the model is structurally total), at least one
sub-chunk is emitted, and every emitted sub-chunk covers at least one whole
data row (`row_count ≥ 1`; sub-chunk texts are built from whole rows of
`tableDataRows`, never a partial row). -/
theorem chunker_split_branch_safety (H : Str → Str) (pn sf : Str) (t : Table)
    (maxTok : Nat) (hm : 1 ≤ maxTok) (hlen : 20 ≤ (pyStrip (chunkText t)).length)
    (hest : maxTok < countWords (chunkText t)) (hrows : 3 < t.rows.length) :
    2 ≤ countWords (chunkText t) / maxTok + 1 ∧
    1 ≤ rowsPerChunk t maxTok ∧
    chunk_docling_json H pn sf [t] maxTok ≠ [] ∧
    ∀ c ∈ chunk_docling_json H pn sf [t] maxTok,
      ∃ m, c.row_count = some m ∧ 1 ≤ m := by
  have hsplit := processTable_split H pn sf t maxTok 0 none hlen hest hrows
  have hr1 := one_le_rowsPerChunk t maxTok
  have hd := tableDataRows_length_ge hrows
  refine ⟨two_le_split_divisor hm hest, hr1, ?_, ?_⟩
  · rw [chunk_docling_single, hsplit]
    have h1 : 1 ≤ (splitChunks H pn sf maxTok 0 (sectionAfter t none) t).length := by
      rw [splitChunks_length]
      exact one_le_ceilDiv hr1 (by omega)
    intro hnil
    rw [hnil] at h1
    simp at h1
  · intro c hc
    rw [chunk_docling_single, hsplit] at hc
    obtain ⟨n, hn⟩ := List.mem_iff_get.mp hc
    have hn' := hn
    rw [splitChunks_get H pn sf maxTok 0 (sectionAfter t none) t n.1 n.2] at hn'
    refine ⟨(subChunkRows t maxTok (n.1 * rowsPerChunk t maxTok)).length, ?_, ?_⟩
    · rw [← hn']
      rfl
    · rw [subChunkRows_length]
      have hlt : n.1 * rowsPerChunk t maxTok < (tableDataRows t).length := by
        apply pyRange_index_lt hr1 (by omega)
        exact lt_of_lt_of_eq n.2 (splitChunks_length H pn sf maxTok 0 (sectionAfter t none) t)
      omega

/-- **C10** witness: the concrete split at `spTable` with budget 2:
divisor 3, `rows_per_chunk` 1, four non-empty sub-chunks of one row each. -/
theorem chunker_split_branch_safety_witness :
    2 ≤ countWords (chunkText spTable) / 2 + 1 ∧
    1 ≤ rowsPerChunk spTable 2 ∧
    chunk_docling_json (fun _ => str "h") (str "P") (str "f") [spTable] 2 ≠ [] ∧
    ∀ c ∈ chunk_docling_json (fun _ => str "h") (str "P") (str "f") [spTable] 2,
      ∃ m, c.row_count = some m ∧ 1 ≤ m :=
  chunker_split_branch_safety (fun _ => str "h") (str "P") (str "f") spTable 2
    (by decide) (by decide) (by decide) (by decide)

/-- **C4** (corrected amendment): a block is assigned chunk_type
`"weed_table"` exactly when `is_weed_table` holds: at least 3 rows and,
*within the first five rows only* (not anywhere in the block, cf. the
counterexample), either a weed keyword contained in the lower-cased first
column or the rate pattern `\d+\s*(mL|g|L)/ha` in some cell; and the spec's
example table — 3 rows, `column_count = 3`, a rate but no weed keyword in
column 1 — is classified weed_table and emitted as one chunk whose text is
exactly its markdown. -/
theorem chunk_type_weed_table_iff (H : Str → Str) (pn sf : Str) (maxTok : Nat) (t : Table) :
    (∀ c ∈ chunk_docling_json H pn sf [t] maxTok,
      (c.chunk_type = str "weed_table" ↔ is_weed_table t = true)) ∧
    (chunk_docling_json (fun _ => str "h") (str "12345") (str "f.json") [exTable]).map
      (fun c => (c.chunk_type, c.text)) = [(str "weed_table", exMarkdown)] := by
  constructor
  · intro c hc
    rw [chunk_docling_single] at hc
    rw [chunk_type_of_mem H pn sf maxTok 0 none t c hc]
    exact tableChunkType_eq_weed_iff t
  · decide

/-- **C4** counterexample: `bigTable` has 6 rows, no weed keyword in any
first column, and the rate pattern `200 mL/ha` **only in row 6**.  The
spec's "anywhere in the block" heuristic accepts it, but the code's
`is_weed_table` scans only `rows[:5]` and rejects it, and the emitted chunk
is typed `"metadata"`, not `"weed_table"`. -/
theorem weed_table_first_five_rows_cex :
    specWeedHeuristic bigTable = true ∧
    is_weed_table bigTable = false ∧
    (chunk_docling_json (fun _ => str "h") (str "P") (str "f") [bigTable]).map Chunk.chunk_type =
      [str "metadata"] := by
  refine ⟨by decide, by decide, by decide⟩

/-! ## C5: the hybrid-search pipeline -/

/-- **C5** (confirmed): `hybrid_search` always issues the vector query
(stage 1), issues the graph-traversal query exactly when expansion is
enabled *and* stage 1 returned at least one result, and with
`expand_graph = false` the trace is the single vector query and the result
carries no graph context (hence no mentions or herbicides). -/
theorem hybrid_search_two_stage {Emb R GC : Type} (embedText : Str → Emb)
    (vectorSearch : Emb → Nat → Option Str → List R) (chunkIdOf : R → Str)
    (graphTraverse : List Str → GC) (query_text : Str) (k : Nat)
    (expand_graph : Bool) (chunk_type : Option Str) :
    (QueryEvent.vectorQuery ∈ (hybrid_search embedText vectorSearch chunkIdOf graphTraverse
        query_text k expand_graph chunk_type).2) ∧
    ((QueryEvent.graphQuery ∈ (hybrid_search embedText vectorSearch chunkIdOf graphTraverse
        query_text k expand_graph chunk_type).2) ↔
      (expand_graph = true ∧ vectorSearch (embedText query_text) k chunk_type ≠ [])) ∧
    (expand_graph = false →
      (hybrid_search embedText vectorSearch chunkIdOf graphTraverse
        query_text k expand_graph chunk_type).2 = [QueryEvent.vectorQuery] ∧
      (hybrid_search embedText vectorSearch chunkIdOf graphTraverse
        query_text k expand_graph chunk_type).1.graph_context = none) ∧
    ((hybrid_search embedText vectorSearch chunkIdOf graphTraverse
        query_text k expand_graph chunk_type).1.chunks =
      vectorSearch (embedText query_text) k chunk_type) := by
  unfold hybrid_search
  by_cases hcond : (expand_graph && !(vectorSearch (embedText query_text) k chunk_type).isEmpty)
      = true
  · rw [if_pos hcond]
    simp only [Bool.and_eq_true, Bool.not_eq_eq_eq_not, Bool.not_true] at hcond
    refine ⟨by simp, ?_, ?_, rfl⟩
    · simp only [List.mem_cons, List.mem_singleton]
      constructor
      · intro _
        exact ⟨hcond.1, by simpa [List.isEmpty_iff] using hcond.2⟩
      · intro _
        simp
    · intro hf
      rw [hf] at hcond
      simp at hcond
  · rw [if_neg hcond]
    refine ⟨by simp, ?_, fun _ => ⟨rfl, rfl⟩, rfl⟩
    simp only [List.mem_singleton]
    constructor
    · intro h
      exact absurd h (by decide)
    · rintro ⟨he, hne⟩
      exfalso
      apply hcond
      simp [he, List.isEmpty_iff, hne]

/-! ## C9: entity extraction lemmas -/

set_option maxRecDepth 10000 in
lemma char_toNat_ofNat_small : ∀ n < 256, (Char.ofNat n).toNat = n := by decide

lemma pyLowerChar_ne_space {c : Char} (h : c ≠ ' ') : pyLowerChar c ≠ ' ' := by
  unfold pyLowerChar
  split_ifs with hr
  · intro he
    have hsmall := char_toNat_ofNat_small (c.toNat + 32) (by omega)
    rw [he] at hsmall
    have hs : (' ' : Char).toNat = 32 := rfl
    omega
  · exact h

lemma pyLowerChar_idem (c : Char) : pyLowerChar (pyLowerChar c) = pyLowerChar c := by
  by_cases hr : 65 ≤ c.toNat ∧ c.toNat ≤ 90
  · have h1 : pyLowerChar c = Char.ofNat (c.toNat + 32) := by
      unfold pyLowerChar
      rw [if_pos hr]
    rw [h1]
    unfold pyLowerChar
    rw [if_neg]
    have := char_toNat_ofNat_small (c.toNat + 32) (by omega)
    omega
  · have h1 : pyLowerChar c = c := by
      unfold pyLowerChar
      rw [if_neg hr]
    rw [h1, h1]

lemma pyLower_idem (s : Str) : pyLower (pyLower s) = pyLower s := by
  unfold pyLower
  rw [List.map_map]
  apply List.map_congr_left
  intro c _
  exact pyLowerChar_idem c

lemma normalizeMention_no_space (g : Str) : ' ' ∉ normalizeMention g := by
  unfold normalizeMention pyLower
  intro hmem
  obtain ⟨c, hc, he⟩ := List.mem_map.mp hmem
  have hcf := List.of_mem_filter hc
  exact pyLowerChar_ne_space (by simpa using hcf) he

lemma normalizeMention_lower (g : Str) : pyLower (normalizeMention g) = normalizeMention g :=
  pyLower_idem _

lemma extract_weeds_shape {text : Str} {n : Str} (h : n ∈ (extract_entity_mentions text).1) :
    ∃ g, n = normalizeMention g := by
  unfold extract_entity_mentions at h
  simp only [List.mem_dedup, List.mem_filterMap, Option.map_eq_some'] at h
  obtain ⟨p, _, g, _, hg⟩ := h
  exact ⟨g, hg.symm⟩

lemma extract_crops_shape {text : Str} {n : Str} (h : n ∈ (extract_entity_mentions text).2) :
    ∃ g, n = normalizeMention g := by
  unfold extract_entity_mentions at h
  simp only [List.mem_dedup, List.mem_filterMap, Option.map_eq_some'] at h
  obtain ⟨p, _, g, _, hg⟩ := h
  exact ⟨g, hg.symm⟩

/-- **C9** (confirmed): `extract_entity_mentions` matches its fixed pattern
lists against the lower-cased text — so it is insensitive to the input's
case (already-lowered input gives the same result) — and returns two
duplicate-free lists in which every name contains no space and is fixed by
lower-casing. -/
theorem extract_entity_mentions_normalized (text : Str) :
    ((extract_entity_mentions text).1.Nodup) ∧
    ((extract_entity_mentions text).2.Nodup) ∧
    (∀ n ∈ (extract_entity_mentions text).1, ' ' ∉ n ∧ pyLower n = n) ∧
    (∀ n ∈ (extract_entity_mentions text).2, ' ' ∉ n ∧ pyLower n = n) ∧
    extract_entity_mentions (pyLower text) = extract_entity_mentions text := by
  refine ⟨List.nodup_dedup _, List.nodup_dedup _, ?_, ?_, ?_⟩
  · intro n hn
    obtain ⟨g, rfl⟩ := extract_weeds_shape hn
    exact ⟨normalizeMention_no_space g, normalizeMention_lower g⟩
  · intro n hn
    obtain ⟨g, rfl⟩ := extract_crops_shape hn
    exact ⟨normalizeMention_no_space g, normalizeMention_lower g⟩
  · unfold extract_entity_mentions
    rw [pyLower_idem]

/-! ## C6: find_chunks_for_weed -/

set_option maxRecDepth 40000 in
/-- **C6** (code bug): the claim describes the function's evident intent
(its docstring promises "Relevant chunks mentioning the weed"), but the
Cypher text the function sends is invalid — the query holds a `UNION` whose
first part concludes with `WITH c, w, 1.0 AS score` and contains no
`RETURN` keyword at all (only the part after the `UNION` does), violating
Neo4j's rule that every union part end with a `RETURN` clause — so every
call, in particular the scenario call on `corpusB` with weed "ryegrass" and
`k = 10`, raises the driver error instead of returning the claimed four
scored rows. -/
theorem find_chunks_for_weed_raises (g : GraphDb) (wname : Str) (k : Nat) :
    pyIn (str "UNION") findChunksForWeedQuery = true ∧
    pyIn (str "RETURN") (textBefore (str "UNION") findChunksForWeedQuery) = false ∧
    pyIn (str "RETURN") (textAfter (str "UNION") findChunksForWeedQuery) = true ∧
    find_chunks_for_weed g wname k = Except.error Neo4jError.cypherError ∧
    find_chunks_for_weed corpusB (str "ryegrass") 10 =
      Except.error Neo4jError.cypherError := by
  have hcond : ¬ (unionPartsContainReturn findChunksForWeedQuery = true) := by decide
  refine ⟨by decide, by decide, by decide, ?_, ?_⟩ <;>
    · unfold find_chunks_for_weed
      rw [if_neg hcond]

/-! ## C7 / C8: the loader's write trace -/

lemma nextOpsOf_cons {E : Type} (a b : Str) (rest : List Str) :
    nextOpsOf (E := E) (a :: b :: rest) =
      WriteOp.mergeNext a b :: nextOpsOf (b :: rest) := by
  simp [nextOpsOf]

lemma filter_next_map_weed {E : Type} (cid : Str) (ws : List Str) :
    ((ws.map (fun w => WriteOp.mergeMentionsWeed (E := E) cid w)).filter isNextOp) = [] := by
  rw [List.filter_map]
  have h : (isNextOp ∘ fun w => WriteOp.mergeMentionsWeed (E := E) cid w) = fun _ => false := rfl
  rw [h]
  simp

lemma filter_next_map_crop {E : Type} (cid : Str) (cs : List Str) :
    ((cs.map (fun cr => WriteOp.mergeMentionsCrop (E := E) cid cr)).filter isNextOp) = [] := by
  rw [List.filter_map]
  have h : (isNextOp ∘ fun cr => WriteOp.mergeMentionsCrop (E := E) cid cr) = fun _ => false := rfl
  rw [h]
  simp

lemma chunkWriteOps_filter_next {E : Type} (le : Bool) (g : GraphDb) :
    ∀ (l : List (Chunk × E)) (prev : Option Str),
      ((chunkWriteOps le g prev l).1.filter isNextOp) =
        nextOpsOf (prev.toList ++ l.map (fun ce => ce.1.chunk_id)) := by
  intro l
  induction l with
  | nil =>
    intro prev
    cases prev <;> simp [chunkWriteOps, nextOpsOf]
  | cons ce rest ih =>
    intro prev
    simp only [chunkWriteOps, List.filter_cons, List.filter_append]
    have h0 : isNextOp (WriteOp.mergeChunk ce.1 ce.2) = false := rfl
    rw [h0]
    have hm : (((if le then
        (extract_entity_mentions ce.1.text).1.map
          (fun w => WriteOp.mergeMentionsWeed (E := E) ce.1.chunk_id w) ++
        (extract_entity_mentions ce.1.text).2.map
          (fun cr => WriteOp.mergeMentionsCrop ce.1.chunk_id cr)
      else [])).filter isNextOp) = [] := by
      split_ifs
      · rw [List.filter_append, filter_next_map_weed, filter_next_map_crop]
        rfl
      · rfl
    rw [hm, ih (some ce.1.chunk_id)]
    cases prev with
    | none => simp
    | some p =>
      simp only [Option.toList, List.cons_append, List.nil_append, List.map_cons]
      rw [nextOpsOf_cons]
      rfl

lemma chunkWriteOps_next_count {E : Type} (le : Bool) (g : GraphDb) :
    ∀ (l : List (Chunk × E)) (prev : Option Str),
      (chunkWriteOps le g prev l).2.1 =
        (prev.toList ++ l.map (fun ce => ce.1.chunk_id)).length - 1 := by
  intro l
  induction l with
  | nil =>
    intro prev
    cases prev <;> simp [chunkWriteOps]
  | cons ce rest ih =>
    intro prev
    simp only [chunkWriteOps]
    rw [ih (some ce.1.chunk_id)]
    cases prev with
    | none => simp
    | some p =>
      simp
      omega

lemma map_chunkid_zip {E : Type} (cs : List Chunk) (es : List E) (h : cs.length ≤ es.length) :
    (cs.zip es).map (fun ce => ce.1.chunk_id) = cs.map Chunk.chunk_id := by
  have hf : (fun ce : Chunk × E => ce.1.chunk_id) = Chunk.chunk_id ∘ Prod.fst := rfl
  rw [hf, ← List.map_map, List.map_fst_zip _ _ h]

lemma nextOpsOf_map_chunk_id {E : Type} : ∀ (l : List Chunk),
    nextOpsOf (E := E) (l.map Chunk.chunk_id) =
      (l.zip l.tail).map (fun p => WriteOp.mergeNext p.1.chunk_id p.2.chunk_id) := by
  intro l
  induction l with
  | nil => rfl
  | cons a rest ih =>
    cases rest with
    | nil => rfl
    | cons b rest2 =>
      simp only [List.map_cons]
      rw [nextOpsOf_cons, ← List.map_cons Chunk.chunk_id b rest2, ih]
      rfl

/-- **C7** (confirmed): when a document loads `n ≥ 1` chunks (and the
embedding model returns one vector per text), the loader creates exactly
`n − 1` NEXT-edge merges — one from the immediately preceding chunk for
every chunk except the first, in strict sequence order — and reports that
count in its statistics. -/
theorem loader_next_edges {E : Type} (H : Str → Str) (embed_batch : List Str → Nat → List E)
    (g : GraphDb) (pn sf : Str) (tables : List Table) (bs : Nat) (le : Bool)
    (hne : chunk_docling_json H pn sf tables ≠ [])
    (hlen : (chunk_docling_json H pn sf tables).length ≤
      (embed_batch ((chunk_docling_json H pn sf tables).map Chunk.contextualize) bs).length) :
    (load_chunks_from_docling H embed_batch g pn sf tables bs le).1.next_rels =
      (chunk_docling_json H pn sf tables).length - 1 ∧
    ((load_chunks_from_docling H embed_batch g pn sf tables bs le).2.filter isNextOp) =
      ((chunk_docling_json H pn sf tables).zip (chunk_docling_json H pn sf tables).tail).map
        (fun p => WriteOp.mergeNext p.1.chunk_id p.2.chunk_id) := by
  rcases hcs : chunk_docling_json H pn sf tables with _ | ⟨c0, rest⟩
  · exact absurd hcs hne
  rw [hcs] at hlen
  simp only [load_chunks_from_docling, hcs]
  constructor
  · rw [chunkWriteOps_next_count le g _ none,
      map_chunkid_zip (c0 :: rest) _ (by simpa using hlen)]
    simp
  · simp only [List.filter_cons]
    have h1 : isNextOp (E := E) (WriteOp.mergeDocument c0.product_number sf
        (c0 :: rest).length) = false := rfl
    have h2 : isNextOp (E := E) (WriteOp.linkHerbicide c0.product_number) = false := rfl
    rw [h1, h2, chunkWriteOps_filter_next le g _ none,
      map_chunkid_zip (c0 :: rest) _ (by simpa using hlen)]
    simp only [Option.toList, List.nil_append]
    exact nextOpsOf_map_chunk_id (c0 :: rest)

/-- **C7** witness: five one-chunk blocks for product "12345" load five
chunks, and the loader reports exactly 4 NEXT merges,
`chunk[0]→chunk[1], …, chunk[3]→chunk[4]`. -/
theorem loader_next_edges_witness :
    (load_chunks_from_docling (E := Unit) (fun _ => str "h") (fun ts _ => ts.map (fun _ => ()))
        {} (str "12345") (str "f") fiveTables 50 true).1.next_rels =
      (chunk_docling_json (fun _ => str "h") (str "12345") (str "f") fiveTables).length - 1 ∧
    ((load_chunks_from_docling (E := Unit) (fun _ => str "h") (fun ts _ => ts.map (fun _ => ()))
        {} (str "12345") (str "f") fiveTables 50 true).2.filter isNextOp) =
      ((chunk_docling_json (fun _ => str "h") (str "12345") (str "f") fiveTables).zip
          (chunk_docling_json (fun _ => str "h") (str "12345") (str "f") fiveTables).tail).map
        (fun p => WriteOp.mergeNext p.1.chunk_id p.2.chunk_id) :=
  loader_next_edges (fun _ => str "h") (fun ts _ => ts.map (fun _ => ())) {} (str "12345")
    (str "f") fiveTables 50 true (by decide) (by decide)

/-! ## C8: contextualised embedding text vs stored text -/

lemma joinSep_parts_append (ms : List Str) (t : Str) :
    joinSep (str " ") (ms ++ [t]) = ((ms.map (fun p => p ++ str " ")).flatten) ++ t := by
  induction ms with
  | nil => rfl
  | cons m ms ih =>
    cases ms with
    | nil => simp [joinSep]
    | cons m2 ms2 =>
      have hstep : joinSep (str " ") (m :: (m2 :: ms2) ++ [t]) =
          m ++ str " " ++ joinSep (str " ") ((m2 :: ms2) ++ [t]) := rfl
      rw [hstep, ih]
      simp [List.append_assoc]

lemma contextualize_eq (c : Chunk) : c.contextualize = context_markers c ++ c.text := by
  unfold Chunk.contextualize context_markers
  exact joinSep_parts_append (chunkParts c) c.text

lemma mergeChunk_mem_chunkWriteOps {E : Type} (le : Bool) (g : GraphDb) :
    ∀ (l : List (Chunk × E)) (prev : Option Str) (c : Chunk) (e : E),
      WriteOp.mergeChunk c e ∈ (chunkWriteOps le g prev l).1 → (c, e) ∈ l := by
  intro l
  induction l with
  | nil =>
    intro prev c e h
    simp [chunkWriteOps] at h
  | cons ce rest ih =>
    intro prev c e h
    simp only [chunkWriteOps, List.mem_cons, List.mem_append] at h
    rcases h with h | h
    · injection h with h1 h2
      rw [List.mem_cons]
      left
      rw [h1, h2]
    · rcases h with (h | h) | h
      · exfalso
        cases prev with
        | none => simp at h
        | some p =>
          simp only [List.mem_singleton] at h
          exact WriteOp.noConfusion h
      · exfalso
        rcases hle : le with _ | _ <;> rw [hle] at h
        · simp at h
        · rcases List.mem_append.mp h with h2 | h2 <;>
            · obtain ⟨x, _, hx⟩ := List.mem_map.mp h2
              exact WriteOp.noConfusion hx
      · exact List.mem_cons_of_mem _ (ih (some ce.1.chunk_id) c e h)

lemma mem_zip_map {α β : Type} (f : α → β) :
    ∀ (l : List α) (c : α) (e : β), (c, e) ∈ l.zip (l.map f) → e = f c := by
  intro l
  induction l with
  | nil =>
    intro c e h
    simp at h
  | cons a rest ih =>
    intro c e h
    rw [List.map_cons, List.zip_cons_cons] at h
    rcases List.mem_cons.mp h with h | h
    · injection h with h1 h2
      rw [h2, h1]
    · exact ih c e h

/-- **C8** (confirmed): the text the loader hands to the embedding model for
each chunk is `contextualize()`'s output — exactly the bracketed context
markers (product, section, type tag) prepended to the raw chunk text —
while the `Chunk` node written by the same merge op stores the raw
`chunk.text`; embedding input and stored text differ precisely by the
prepended marker prefix.  (Instantiating the embedding oracle with the
identity exposes the embedded text inside each `mergeChunk` op.) -/
theorem loader_embeds_contextualized (H : Str → Str) (g : GraphDb) (pn sf : Str)
    (tables : List Table) (bs : Nat) (le : Bool) :
    (∀ c e, WriteOp.mergeChunk c e ∈
        (load_chunks_from_docling (E := Str) H (fun ts _ => ts) g pn sf tables bs le).2 →
      e = Chunk.contextualize c ∧ e = context_markers c ++ c.text) ∧
    (∀ c : Chunk, Chunk.contextualize c = context_markers c ++ c.text) := by
  constructor
  · intro c e hmem
    rcases hcs : chunk_docling_json H pn sf tables with _ | ⟨c0, rest⟩
    · simp [load_chunks_from_docling, hcs] at hmem
    · simp only [load_chunks_from_docling, hcs] at hmem
      rcases List.mem_cons.mp hmem with h | hmem2
      · exact WriteOp.noConfusion h
      rcases List.mem_cons.mp hmem2 with h | hmem3
      · exact WriteOp.noConfusion h
      have hzip := mergeChunk_mem_chunkWriteOps le g _ none c e hmem3
      have he := mem_zip_map Chunk.contextualize (c0 :: rest) c e hzip
      exact ⟨he, by rw [he, contextualize_eq]⟩
  · exact contextualize_eq

end WeedAI
